import Mathlib

/-!
Verification of the parking-management system core: fee calculation,
space ledger, entry/exit state machine and the occupancy report.

The definitions below are a shallow embedding of the TypeScript source:
timestamps are integers (milliseconds), money values are exact rationals,
database integer columns are integers, and each controller is a pure
function from a store to a result together with the updated store.
-/

namespace ParkingMS

/-- Failure taxonomy of the controllers (ServerResponse helpers). -/
inductive ApiError where
  | notFound
  | noCapacity
  | conflict
  | invalidInput
  | internal
deriving DecidableEq, Repr

/-- The HTTP status each failure is sent with, from the ServerResponse
class (utils/response.ts, appended in the repository inside
prisma/migrations/20250520101611_init/migration.sql): the controllers
call `ServerResponse.notFound` (status 404) for an unknown parking or
entry, `ServerResponse.badRequest` (status 400) for no capacity and for
validation failures, `ServerResponse.conflict` (status 409) for a
duplicate open entry or an already-closed entry, and
`ServerResponse.error` (status 500) for anything unexpected. -/
def ApiError.httpStatus : ApiError → Nat
  | .notFound => 404
  | .noCapacity => 400
  | .conflict => 409
  | .invalidInput => 400
  | .internal => 500

/-- A `parkings` row (prisma model Parking); `totalSpaces` and
`availableSpaces` are INTEGER columns, `hourlyFee` is a Decimal. -/
structure Parking where
  code : String
  name : String
  totalSpaces : ℤ
  availableSpaces : ℤ
  location : String
  hourlyFee : ℚ
deriving DecidableEq, Repr

/-- An `entries` row (prisma model Entry); `exitDateTime` and
`chargedAmount` are nullable. The uuid primary key is modelled by a
creation counter. -/
structure Entry where
  id : ℕ
  plateNumber : String
  parkingCode : String
  entryDateTime : ℤ
  exitDateTime : Option ℤ
  chargedAmount : Option ℚ
deriving DecidableEq, Repr

/-- The persistent state the controllers read and write. -/
structure Store where
  parkings : List Parking
  entries : List Entry
  nextId : ℕ
deriving DecidableEq, Repr

def emptyStore : Store := { parkings := [], entries := [], nextId := 0 }

deriving instance DecidableEq for Except

/-- Ticket projection returned by registerEntry (Register.tsx). -/
structure Ticket where
  ticketNumber : ℕ
  plateNumber : String
  parkingName : String
  entryDateTime : ℤ
  hourlyFee : ℚ
deriving DecidableEq, Repr

/-- Bill projection returned by registerExit (Register.tsx). -/
structure Bill where
  billNumber : ℕ
  plateNumber : String
  parkingName : String
  entryDateTime : ℤ
  exitDateTime : ℤ
  durationInHours : ℤ
  hourlyFee : ℚ
  totalAmount : Option ℚ
deriving DecidableEq, Repr

/-- Lookup `prisma.parking.findUnique({ where: { code } })`. -/
def findParking (s : Store) (code : String) : Option Parking :=
  s.parkings.find? (fun p => p.code == code)

/-- Lookup `prisma.entry.findUnique({ where: { id } })`. -/
def findEntry (s : Store) (id : ℕ) : Option Entry :=
  s.entries.find? (fun e => e.id == id)

/-- Lookup `prisma.entry.findFirst({ where: { plateNumber, parkingCode,
exitDateTime: null } })` in registerEntry. -/
def findActiveEntry (s : Store) (plateNumber parkingCode : String) : Option Entry :=
  s.entries.find? (fun e =>
    e.plateNumber == plateNumber && e.parkingCode == parkingCode && e.exitDateTime.isNone)

/-- A date value as produced by `new Date(x)`: either a millisecond
timestamp or an Invalid Date (`isNaN(d.getTime())`). -/
inductive DateInput where
  | valid (ms : ℤ)
  | invalid
deriving DecidableEq, Repr

/-- Function `calculateParkingFee` from VehicleManagement.tsx. A missing or
non-positive fee, a missing entry instant, an invalid date, or an exit
before the entry yields 0; otherwise the duration in minutes is divided
by 60 and rounded up (`Math.ceil`), and multiplied by the fee. An absent
`exitDateTime` means `new Date()`, that is `now`. -/
def calculateParkingFee (hourlyFee : Option ℚ) (entryDateTime : Option DateInput)
    (exitDateTime : Option DateInput) (now : ℤ) : ℚ :=
  if hourlyFee.isNone ∨ hourlyFee.getD 0 ≤ 0 ∨ entryDateTime.isNone then 0
  else
    match entryDateTime.getD DateInput.invalid with
    | DateInput.invalid => 0
    | DateInput.valid entryMs =>
      match exitDateTime.getD (DateInput.valid now) with
      | DateInput.invalid => 0
      | DateInput.valid exitMs =>
        if exitMs < entryMs then 0
        else
          let durationMinutes : ℚ := ((exitMs - entryMs : ℤ) : ℚ) / (1000 * 60)
          let hoursCharged : ℤ := ⌈durationMinutes / 60⌉
          (hoursCharged : ℚ) * hourlyFee.getD 0

/-- Controller `registerEntry` (entry controller in Register.tsx): 404 when the
parking code is unknown, 400 when no space is available, 409 when an open
entry for the same plate and parking exists; otherwise an open entry is
created, the available-space count is decremented and a ticket carrying
the current hourly fee is returned. -/
def registerEntry (s : Store) (plateNumber parkingCode : String) (now : ℤ) :
    Except ApiError (Store × Entry × Ticket) :=
  match findParking s parkingCode with
  | none => Except.error ApiError.notFound
  | some parking =>
    if parking.availableSpaces ≤ 0 then Except.error ApiError.noCapacity
    else
      match findActiveEntry s plateNumber parkingCode with
      | some _ => Except.error ApiError.conflict
      | none =>
        let entry : Entry :=
          { id := s.nextId, plateNumber := plateNumber, parkingCode := parkingCode,
            entryDateTime := now, exitDateTime := none, chargedAmount := none }
        let s2 : Store :=
          { s with
            entries := s.entries ++ [entry],
            nextId := s.nextId + 1,
            parkings := s.parkings.map (fun p =>
              if p.code == parkingCode
              then { p with availableSpaces := p.availableSpaces - 1 } else p) }
        let ticket : Ticket :=
          { ticketNumber := entry.id, plateNumber := entry.plateNumber,
            parkingName := parking.name, entryDateTime := entry.entryDateTime,
            hourlyFee := parking.hourlyFee }
        Except.ok (s2, entry, ticket)

/-- Controller `registerExit` (entry controller in Register.tsx): 404 when the
entry id is unknown, 409 when the entry is already closed; otherwise the
duration in milliseconds is divided by 1000*60*60 and rounded up
(`Math.ceil`), the charge is the entry's parking's current hourly fee
times those hours, the entry is closed, and the available-space count is
incremented. A dangling parking reference cannot occur in the database
(foreign key) and is mapped to an internal error. -/
def registerExit (s : Store) (id : ℕ) (now : ℤ) :
    Except ApiError (Store × Entry × Bill) :=
  match findEntry s id with
  | none => Except.error ApiError.notFound
  | some entry =>
    if entry.exitDateTime.isSome then Except.error ApiError.conflict
    else
      match findParking s entry.parkingCode with
      | none => Except.error ApiError.internal
      | some parking =>
        let durationInMs : ℤ := now - entry.entryDateTime
        let durationInHours : ℤ := ⌈((durationInMs : ℚ) / (1000 * 60 * 60))⌉
        let chargedAmount : ℚ := parking.hourlyFee * (durationInHours : ℚ)
        let updatedEntry : Entry :=
          { entry with exitDateTime := some now, chargedAmount := some chargedAmount }
        let s2 : Store :=
          { s with
            entries := s.entries.map (fun e => if e.id == id then updatedEntry else e),
            parkings := s.parkings.map (fun p =>
              if p.code == entry.parkingCode
              then { p with availableSpaces := p.availableSpaces + 1 } else p) }
        let bill : Bill :=
          { billNumber := updatedEntry.id, plateNumber := updatedEntry.plateNumber,
            parkingName := parking.name, entryDateTime := updatedEntry.entryDateTime,
            exitDateTime := now, durationInHours := durationInHours,
            hourlyFee := parking.hourlyFee, totalAmount := updatedEntry.chargedAmount }
        Except.ok (s2, updatedEntry, bill)

/-- Controller `createParking` from parking.controller.ts: 409 when the code exists,
otherwise the parking is created with `availableSpaces := totalSpaces`. -/
def createParking (s : Store) (code name : String) (totalSpaces : ℤ)
    (location : String) (hourlyFee : ℚ) : Except ApiError (Store × Parking) :=
  match findParking s code with
  | some _ => Except.error ApiError.conflict
  | none =>
    let parking : Parking :=
      { code := code, name := name, totalSpaces := totalSpaces,
        availableSpaces := totalSpaces, location := location, hourlyFee := hourlyFee }
    Except.ok ({ s with parkings := s.parkings ++ [parking] }, parking)

/-- JavaScript `x || dflt` for an optional integer field: undefined and 0
are falsy. -/
def jsOrInt (v : Option ℤ) (dflt : ℤ) : ℤ :=
  match v with
  | none => dflt
  | some x => if x = 0 then dflt else x

/-- JavaScript `x || dflt` for an optional decimal field. -/
def jsOrRat (v : Option ℚ) (dflt : ℚ) : ℚ :=
  match v with
  | none => dflt
  | some x => if x = 0 then dflt else x

/-- JavaScript `x || dflt` for an optional string field: undefined and the
empty string are falsy. -/
def jsOrStr (v : Option String) (dflt : String) : String :=
  match v with
  | none => dflt
  | some x => if x = "" then dflt else x

/-- The `availableSpacesAdjustment` computation of updateParking: zero
unless a `totalSpaces` value is supplied that differs from the stored
one, in which case it is the difference. -/
def availAdjustment (totalSpaces : Option ℤ) (existingTotal : ℤ) : ℤ :=
  match totalSpaces with
  | none => 0
  | some t => if t = existingTotal then 0 else t - existingTotal

/-- Controller `updateParking` from parking.controller.ts: 404 when the code is
unknown; when a `totalSpaces` value is supplied and differs from the
stored one, `availableSpaces` is incremented by the difference; each field
is replaced only when its supplied value is truthy (`field ||
existingParking.field`). -/
def updateParking (s : Store) (code : String) (name location : Option String)
    (totalSpaces : Option ℤ) (hourlyFee : Option ℚ) : Except ApiError (Store × Parking) :=
  match findParking s code with
  | none => Except.error ApiError.notFound
  | some existingParking =>
    let availableSpacesAdjustment : ℤ :=
      availAdjustment totalSpaces existingParking.totalSpaces
    let updatedParking : Parking :=
      { existingParking with
        name := jsOrStr name existingParking.name,
        totalSpaces := jsOrInt totalSpaces existingParking.totalSpaces,
        availableSpaces := existingParking.availableSpaces + availableSpacesAdjustment,
        location := jsOrStr location existingParking.location,
        hourlyFee := jsOrRat hourlyFee existingParking.hourlyFee }
    Except.ok
      ({ s with parkings := s.parkings.map (fun p => if p.code == code then updatedParking else p) },
       updatedParking)

/-- Route validation for POST /api/parkings (parking.routes.ts):
`code`, `name`, `location` notEmpty, `totalSpaces` isInt min 1,
`hourlyFee` isFloat min 0. -/
def createParkingApi (s : Store) (code name : String) (totalSpaces : ℤ)
    (location : String) (hourlyFee : ℚ) : Except ApiError (Store × Parking) :=
  if code = "" ∨ name = "" ∨ totalSpaces < 1 ∨ location = "" ∨ hourlyFee < 0
  then Except.error ApiError.invalidInput
  else createParking s code name totalSpaces location hourlyFee

/-- Optional `totalSpaces` validator of PUT /api/parkings (isInt min 1). -/
def validTotalSpacesOpt : Option ℤ → Bool
  | none => true
  | some t => decide (1 ≤ t)

/-- Optional `hourlyFee` validator of PUT /api/parkings (isFloat min 0). -/
def validHourlyFeeOpt : Option ℚ → Bool
  | none => true
  | some f => decide (0 ≤ f)

/-- Route validation for PUT /api/parkings (parking.routes.ts): the code
parameter notEmpty, optional `totalSpaces` isInt min 1, optional
`hourlyFee` isFloat min 0. -/
def updateParkingApi (s : Store) (code : String) (name location : Option String)
    (totalSpaces : Option ℤ) (hourlyFee : Option ℚ) : Except ApiError (Store × Parking) :=
  if code = "" ∨ validTotalSpacesOpt totalSpaces = false ∨ validHourlyFeeOpt hourlyFee = false
  then Except.error ApiError.invalidInput
  else updateParking s code name location totalSpaces hourlyFee

/-- Route validation for POST /api/entries (entry.routes.ts):
`plateNumber` and `parkingCode` notEmpty. -/
def registerEntryApi (s : Store) (plateNumber parkingCode : String) (now : ℤ) :
    Except ApiError (Store × Entry × Ticket) :=
  if plateNumber = "" ∨ parkingCode = ""
  then Except.error ApiError.invalidInput
  else registerEntry s plateNumber parkingCode now

/-- The state-mutating API operations the claims quantify over. -/
inductive Op where
  | create (code name : String) (totalSpaces : ℤ) (location : String) (hourlyFee : ℚ)
  | update (code : String) (name location : Option String)
      (totalSpaces : Option ℤ) (hourlyFee : Option ℚ)
  | entry (plateNumber parkingCode : String) (now : ℤ)
  | exit (id : ℕ) (now : ℤ)
deriving DecidableEq, Repr

/-- One API request: on failure the store is unchanged. -/
def applyOp (s : Store) : Op → Store
  | .create code name totalSpaces location hourlyFee =>
    match createParkingApi s code name totalSpaces location hourlyFee with
    | Except.ok r => r.1
    | Except.error _ => s
  | .update code name location totalSpaces hourlyFee =>
    match updateParkingApi s code name location totalSpaces hourlyFee with
    | Except.ok r => r.1
    | Except.error _ => s
  | .entry plateNumber parkingCode now =>
    match registerEntryApi s plateNumber parkingCode now with
    | Except.ok r => r.1
    | Except.error _ => s
  | .exit id now =>
    match registerExit s id now with
    | Except.ok r => r.1
    | Except.error _ => s

def runOps (s : Store) (ops : List Op) : Store := ops.foldl applyOp s

/-- The open entries of a parking, as filtered by
`prisma.entry.count({ where: { parkingCode, exitDateTime: null } })`. -/
def isOpenFor (code : String) (e : Entry) : Bool :=
  e.parkingCode == code && e.exitDateTime.isNone

def openCount (s : Store) (code : String) : ℕ := s.entries.countP (isOpenFor code)

/-- The space invariant of the spec: `0 <= availableSpaces <= totalSpaces`. -/
def parkingInv (s : Store) : Prop :=
  ∀ p ∈ s.parkings, 0 ≤ p.availableSpaces ∧ p.availableSpaces ≤ p.totalSpaces

/-- One row of the occupancy report (server.ts
getParkingOccupancyReport). -/
structure OccupancyRow where
  parkingCode : String
  parkingName : String
  totalSpaces : ℤ
  occupiedSpaces : ℤ
  availableSpaces : ℤ
  occupancyRate : ℚ
deriving DecidableEq, Repr

/-- Report `getParkingOccupancyReport` from server.ts: per parking, the count of
its open entries and `occupancyRate = activeEntries / totalSpaces * 100`. -/
def getParkingOccupancyReport (s : Store) : List OccupancyRow :=
  s.parkings.map (fun parking =>
    let activeEntries : ℕ := (s.entries.filter (isOpenFor parking.code)).length
    { parkingCode := parking.code, parkingName := parking.name,
      totalSpaces := parking.totalSpaces, occupiedSpaces := (activeEntries : ℤ),
      availableSpaces := parking.availableSpaces,
      occupancyRate := ((activeEntries : ℚ) / (parking.totalSpaces : ℚ)) * 100 })

/-- Entry ids are pairwise distinct and below the creation counter; this
models the uniqueness of the uuid primary key of `entries`. -/
structure EntriesWF (s : Store) : Prop where
  ids_nodup : (s.entries.map Entry.id).Nodup
  ids_lt : ∀ e ∈ s.entries, e.id < s.nextId

/-- The conditions the claims assume of update requests beyond route
validation: an update must not shrink `totalSpaces` below its stored
value (otherwise the space invariant can break, see the C2 analysis). -/
def opSafe (s : Store) : Op → Bool
  | .update code _ _ totalSpaces _ =>
    match totalSpaces, findParking s code with
    | some t, some p => decide (p.totalSpaces ≤ t)
    | _, _ => true
  | _ => true

/-- Predicate `opSafe` holding along a whole operation sequence. -/
def safeOps : Store → List Op → Bool
  | _, [] => true
  | s, op :: ops => opSafe s op && safeOps (applyOp s op) ops

/-- Formalisation of the charging formula exactly as claim C1 words it:
the duration is taken in whole minutes (fractional minutes truncated),
the hours charged are the ceiling of minutes over 60, with a minimum of
one hour for any positive duration, and the charge is hours times fee. -/
def specFeeWholeMinutes (hourlyFee : ℚ) (durationMs : ℤ) : ℚ :=
  let durationMinutes : ℤ := durationMs.fdiv 60000
  let hoursCharged : ℤ :=
    if 0 < durationMs then max ⌈((durationMinutes : ℚ) / 60)⌉ 1
    else ⌈((durationMinutes : ℚ) / 60)⌉
  (hoursCharged : ℚ) * hourlyFee

instance (s : Store) : Decidable (parkingInv s) := by
  unfold parkingInv; infer_instance

/-! ### Shapes of the successful controller runs -/

theorem createParking_ok {s : Store} {code name : String} {totalSpaces : ℤ}
    {location : String} {hourlyFee : ℚ} {s2 : Store} {p : Parking}
    (h : createParking s code name totalSpaces location hourlyFee = Except.ok (s2, p)) :
    findParking s code = none ∧
    p = { code := code, name := name, totalSpaces := totalSpaces,
          availableSpaces := totalSpaces, location := location, hourlyFee := hourlyFee } ∧
    s2 = { s with parkings := s.parkings ++ [p] } := by
  unfold createParking at h
  split at h
  · exact absurd h (by simp)
  · rename_i hfind
    refine ⟨hfind, ?_⟩
    simp only [Except.ok.injEq, Prod.mk.injEq] at h
    obtain ⟨h1, h2⟩ := h
    exact ⟨h2.symm, by rw [← h1, ← h2]⟩

theorem createParkingApi_ok {s : Store} {code name : String} {totalSpaces : ℤ}
    {location : String} {hourlyFee : ℚ} {r : Store × Parking}
    (h : createParkingApi s code name totalSpaces location hourlyFee = Except.ok r) :
    1 ≤ totalSpaces ∧ 0 ≤ hourlyFee ∧
    createParking s code name totalSpaces location hourlyFee = Except.ok r := by
  unfold createParkingApi at h
  split at h
  · exact absurd h (by simp)
  · rename_i hv
    push_neg at hv
    exact ⟨by omega, hv.2.2.2.2, h⟩

theorem updateParking_ok {s : Store} {code : String} {name location : Option String}
    {totalSpaces : Option ℤ} {hourlyFee : Option ℚ} {s2 : Store} {upd : Parking}
    (h : updateParking s code name location totalSpaces hourlyFee = Except.ok (s2, upd)) :
    ∃ existingParking, findParking s code = some existingParking ∧
    upd = { existingParking with
            name := jsOrStr name existingParking.name,
            totalSpaces := jsOrInt totalSpaces existingParking.totalSpaces,
            availableSpaces := existingParking.availableSpaces +
              availAdjustment totalSpaces existingParking.totalSpaces,
            location := jsOrStr location existingParking.location,
            hourlyFee := jsOrRat hourlyFee existingParking.hourlyFee } ∧
    s2 = { s with parkings :=
            s.parkings.map (fun p => if p.code == code then upd else p) } := by
  unfold updateParking at h
  split at h
  · exact absurd h (by simp)
  · rename_i existingParking hfind
    refine ⟨existingParking, hfind, ?_⟩
    simp only [Except.ok.injEq, Prod.mk.injEq] at h
    obtain ⟨h1, h2⟩ := h
    constructor
    · exact h2.symm
    · rw [← h1, ← h2]

theorem updateParkingApi_ok {s : Store} {code : String} {name location : Option String}
    {totalSpaces : Option ℤ} {hourlyFee : Option ℚ} {r : Store × Parking}
    (h : updateParkingApi s code name location totalSpaces hourlyFee = Except.ok r) :
    (∀ t, totalSpaces = some t → 1 ≤ t) ∧ (∀ f, hourlyFee = some f → 0 ≤ f) ∧
    updateParking s code name location totalSpaces hourlyFee = Except.ok r := by
  unfold updateParkingApi at h
  split at h
  · exact absurd h (by simp)
  · rename_i hv
    push_neg at hv
    obtain ⟨-, hts, hhf⟩ := hv
    refine ⟨?_, ?_, h⟩
    · intro t ht
      have := hts
      rw [ht] at this
      simp only [validTotalSpacesOpt, decide_eq_false_iff_not, not_le] at this
      by_contra hlt
      exact this (by simpa using hlt)
    · intro f hf
      have := hhf
      rw [hf] at this
      simp only [validHourlyFeeOpt, decide_eq_false_iff_not, not_le] at this
      by_contra hlt
      exact this (by simpa using hlt)

theorem registerEntry_ok {s : Store} {plateNumber parkingCode : String} {now : ℤ}
    {s2 : Store} {e : Entry} {tk : Ticket}
    (h : registerEntry s plateNumber parkingCode now = Except.ok (s2, e, tk)) :
    ∃ parking, findParking s parkingCode = some parking ∧
    0 < parking.availableSpaces ∧
    findActiveEntry s plateNumber parkingCode = none ∧
    e = { id := s.nextId, plateNumber := plateNumber, parkingCode := parkingCode,
          entryDateTime := now, exitDateTime := none, chargedAmount := none } ∧
    tk = { ticketNumber := s.nextId, plateNumber := plateNumber,
           parkingName := parking.name, entryDateTime := now,
           hourlyFee := parking.hourlyFee } ∧
    s2 = { s with
           entries := s.entries ++ [e],
           nextId := s.nextId + 1,
           parkings := s.parkings.map (fun p =>
             if p.code == parkingCode
             then { p with availableSpaces := p.availableSpaces - 1 } else p) } := by
  unfold registerEntry at h
  split at h
  · exact absurd h (by simp)
  · rename_i parking hfind
    split at h
    · exact absurd h (by simp)
    · rename_i hcap
      split at h
      · exact absurd h (by simp)
      · rename_i hactive
        refine ⟨parking, hfind, by omega, hactive, ?_⟩
        simp only [Except.ok.injEq, Prod.mk.injEq] at h
        obtain ⟨h1, h2, h3⟩ := h
        refine ⟨h2.symm, h3.symm, ?_⟩
        rw [← h1, ← h2]

theorem registerEntryApi_ok {s : Store} {plateNumber parkingCode : String} {now : ℤ}
    {r : Store × Entry × Ticket}
    (h : registerEntryApi s plateNumber parkingCode now = Except.ok r) :
    plateNumber ≠ "" ∧ parkingCode ≠ "" ∧
    registerEntry s plateNumber parkingCode now = Except.ok r := by
  unfold registerEntryApi at h
  split at h
  · exact absurd h (by simp)
  · rename_i hv
    push_neg at hv
    exact ⟨hv.1, hv.2, h⟩

theorem registerExit_ok {s : Store} {id : ℕ} {now : ℤ}
    {s2 : Store} {e2 : Entry} {bill : Bill}
    (h : registerExit s id now = Except.ok (s2, e2, bill)) :
    ∃ entry parking, findEntry s id = some entry ∧
    entry.exitDateTime = none ∧
    findParking s entry.parkingCode = some parking ∧
    e2 = { entry with
           exitDateTime := some now,
           chargedAmount := some (parking.hourlyFee *
             ((⌈(((now - entry.entryDateTime : ℤ) : ℚ) / (1000 * 60 * 60))⌉ : ℤ) : ℚ)) } ∧
    bill = { billNumber := entry.id, plateNumber := entry.plateNumber,
             parkingName := parking.name, entryDateTime := entry.entryDateTime,
             exitDateTime := now,
             durationInHours := ⌈(((now - entry.entryDateTime : ℤ) : ℚ) / (1000 * 60 * 60))⌉,
             hourlyFee := parking.hourlyFee,
             totalAmount := some (parking.hourlyFee *
               ((⌈(((now - entry.entryDateTime : ℤ) : ℚ) / (1000 * 60 * 60))⌉ : ℤ) : ℚ)) } ∧
    s2 = { s with
           entries := s.entries.map (fun e => if e.id == id then e2 else e),
           parkings := s.parkings.map (fun p =>
             if p.code == entry.parkingCode
             then { p with availableSpaces := p.availableSpaces + 1 } else p) } := by
  unfold registerExit at h
  split at h
  · exact absurd h (by simp)
  · rename_i entry hfind
    split at h
    · exact absurd h (by simp)
    · rename_i hopen
      split at h
      · exact absurd h (by simp)
      · rename_i parking hpark
        refine ⟨entry, parking, hfind, by simpa using hopen, hpark, ?_⟩
        simp only [Except.ok.injEq, Prod.mk.injEq] at h
        obtain ⟨h1, h2, h3⟩ := h
        refine ⟨h2.symm, h3.symm, ?_⟩
        rw [← h1, ← h2]

/-! ### Lookup and list helper lemmas -/

theorem findParking_some {s : Store} {c : String} {p : Parking}
    (h : findParking s c = some p) : p ∈ s.parkings ∧ p.code = c :=
  ⟨List.mem_of_find?_eq_some h, by simpa using List.find?_some h⟩

theorem findParking_none {s : Store} {c : String} (h : findParking s c = none) :
    ∀ p ∈ s.parkings, p.code ≠ c := by
  intro p hp
  have := List.find?_eq_none.mp h p hp
  simpa using this

theorem findEntry_some {s : Store} {i : ℕ} {e : Entry}
    (h : findEntry s i = some e) : e ∈ s.entries ∧ e.id = i :=
  ⟨List.mem_of_find?_eq_some h, by simpa using List.find?_some h⟩

theorem findEntry_eq_self {s : Store} {e : Entry}
    (hnd : (s.entries.map Entry.id).Nodup) (he : e ∈ s.entries) :
    findEntry s e.id = some e := by
  have hsome : (s.entries.find? (fun x => x.id == e.id)).isSome :=
    List.find?_isSome.mpr ⟨e, he, by simp⟩
  obtain ⟨q, hq⟩ := Option.isSome_iff_exists.mp hsome
  have hqmem : q ∈ s.entries := List.mem_of_find?_eq_some hq
  have hqid : q.id = e.id := by simpa using List.find?_some hq
  have hqe : q = e := List.inj_on_of_nodup_map hnd hqmem he hqid
  rw [findEntry, hq, hqe]

theorem findParking_eq_self {s : Store} {p : Parking}
    (hnd : (s.parkings.map Parking.code).Nodup) (hp : p ∈ s.parkings) :
    findParking s p.code = some p := by
  have hsome : (s.parkings.find? (fun x => x.code == p.code)).isSome :=
    List.find?_isSome.mpr ⟨p, hp, by simp⟩
  obtain ⟨q, hq⟩ := Option.isSome_iff_exists.mp hsome
  have hqmem : q ∈ s.parkings := List.mem_of_find?_eq_some hq
  have hqcode : q.code = p.code := by simpa using List.find?_some hq
  have hqp : q = p := List.inj_on_of_nodup_map hnd hqmem hp hqcode
  rw [findParking, hq, hqp]

theorem codes_map_eq {l : List Parking} {f : Parking → Parking}
    (h : ∀ p ∈ l, (f p).code = p.code) :
    (l.map f).map Parking.code = l.map Parking.code := by
  rw [List.map_map]
  exact List.map_congr_left h

theorem map_update_id_of_no_match {l : List Entry} {i : ℕ} {upd : Entry}
    (h : ∀ e ∈ l, e.id ≠ i) : l.map (fun e => if e.id == i then upd else e) = l := by
  have : ∀ e ∈ l, (fun e => if e.id == i then upd else e) e = e := by
    intro e he
    simp [h e he]
  rw [List.map_congr_left this]
  simp

/-- Replacing the unique entry carrying a given id changes `countP` by
removing that entry's contribution and adding the replacement's. -/
theorem countP_map_update {l : List Entry} {i : ℕ} {upd e0 : Entry} (p : Entry → Bool)
    (hnd : (l.map Entry.id).Nodup) (he0 : e0 ∈ l) (hid : e0.id = i) :
    ((l.map (fun e => if e.id == i then upd else e)).countP p : ℤ)
      = (l.countP p : ℤ) - (if p e0 then 1 else 0) + (if p upd then 1 else 0) := by
  induction l with
  | nil => cases he0
  | cons a t ih =>
    simp only [List.map_cons, List.nodup_cons] at hnd
    obtain ⟨hnotin, hndt⟩ := hnd
    rcases List.mem_cons.mp he0 with heq | he0t
    · subst heq
      have hrepl : (e0.id == i) = true := beq_iff_eq.mpr hid
      have htail : ∀ e ∈ t, e.id ≠ i := by
        intro e het heqid
        exact hnotin (by rw [hid, ← heqid]; exact List.mem_map_of_mem Entry.id het)
      rw [List.map_cons, if_pos hrepl, map_update_id_of_no_match htail,
          List.countP_cons, List.countP_cons]
      push_cast
      by_cases hpa : p e0 <;> by_cases hpu : p upd <;> simp [hpa, hpu]
    · have hne : ¬ ((a.id == i) = true) := by
        rw [beq_iff_eq]
        intro heqid
        exact hnotin (by rw [heqid, ← hid]; exact List.mem_map_of_mem Entry.id he0t)
      rw [List.map_cons, if_neg hne, List.countP_cons, List.countP_cons]
      have hrec := ih hndt he0t
      push_cast at hrec ⊢
      by_cases hpa : p a <;> by_cases hp0 : p e0 <;> by_cases hpu : p upd <;>
        simp [hpa, hp0, hpu] at hrec ⊢ <;> omega

/-! ### Preservation of the entry-id wellformedness -/

theorem entriesWF_applyOp {s : Store} (h : EntriesWF s) (op : Op) :
    EntriesWF (applyOp s op) := by
  cases op with
  | create code name totalSpaces location hourlyFee =>
    simp only [applyOp]
    cases hres : createParkingApi s code name totalSpaces location hourlyFee with
    | error e => exact h
    | ok r =>
      obtain ⟨s2, p⟩ := r
      obtain ⟨-, -, hc⟩ := createParkingApi_ok hres
      obtain ⟨-, -, hs2⟩ := createParking_ok hc
      subst hs2
      exact ⟨h.ids_nodup, h.ids_lt⟩
  | update code name location totalSpaces hourlyFee =>
    simp only [applyOp]
    cases hres : updateParkingApi s code name location totalSpaces hourlyFee with
    | error e => exact h
    | ok r =>
      obtain ⟨s2, p⟩ := r
      obtain ⟨-, -, hu⟩ := updateParkingApi_ok hres
      obtain ⟨existing, -, -, hs2⟩ := updateParking_ok hu
      subst hs2
      exact ⟨h.ids_nodup, h.ids_lt⟩
  | entry plateNumber parkingCode now =>
    simp only [applyOp]
    cases hres : registerEntryApi s plateNumber parkingCode now with
    | error e => exact h
    | ok r =>
      obtain ⟨s2, e, tk⟩ := r
      obtain ⟨-, -, hre⟩ := registerEntryApi_ok hres
      obtain ⟨parking, -, -, -, hee, -, hs2⟩ := registerEntry_ok hre
      subst hs2
      constructor
      · simp only [List.map_append, List.map_cons, List.map_nil]
        rw [List.nodup_append]
        refine ⟨h.ids_nodup, List.nodup_singleton _, ?_⟩
        intro a ha hb
        simp only [List.mem_singleton] at hb
        obtain ⟨e0, he0, he0id⟩ := List.mem_map.mp ha
        have := h.ids_lt e0 he0
        subst hb
        rw [hee] at he0id
        simp at he0id
        omega
      · intro e0 he0
        rcases List.mem_append.mp he0 with hl | hr
        · have := h.ids_lt e0 hl
          simp only
          omega
        · simp only [List.mem_singleton] at hr
          subst hr
          rw [hee]
          simp
  | exit i now =>
    simp only [applyOp]
    cases hres : registerExit s i now with
    | error e => exact h
    | ok r =>
      obtain ⟨s2, e2, bill⟩ := r
      obtain ⟨entry, parking, hfind, -, -, he2, -, hs2⟩ := registerExit_ok hres
      have hentryid : entry.id = i := (findEntry_some hfind).2
      have hidmap : (s.entries.map (fun e => if e.id == i then e2 else e)).map Entry.id
          = s.entries.map Entry.id := by
        rw [List.map_map]
        apply List.map_congr_left
        intro e he
        by_cases hcase : e.id = i
        · simp [hcase, he2, hentryid]
        · simp [hcase]
      subst hs2
      constructor
      · simp only
        rw [hidmap]
        exact h.ids_nodup
      · intro e0 he0
        simp only at he0 ⊢
        obtain ⟨e1, he1, he1eq⟩ := List.mem_map.mp he0
        have hlt := h.ids_lt e1 he1
        by_cases hcase : e1.id = i
        · rw [← he1eq]
          simp only [hcase, beq_self_eq_true, if_true]
          rw [he2]
          simp only
          omega
        · rw [← he1eq]
          simp [hcase, hlt]

theorem entriesWF_runOps {s : Store} (h : EntriesWF s) (ops : List Op) :
    EntriesWF (runOps s ops) := by
  induction ops generalizing s with
  | nil => exact h
  | cons op ops ih => exact ih (entriesWF_applyOp h op)

/-! ### Closed entries never change again -/

/-- Every entry invariant: the charge is present exactly when the exit
instant is (claim C9's invariant). -/
def chargeMatchesExit (s : Store) : Prop :=
  ∀ e ∈ s.entries, (e.chargedAmount.isSome ↔ e.exitDateTime.isSome)

theorem chargeMatchesExit_applyOp {s : Store} (h : chargeMatchesExit s) (op : Op) :
    chargeMatchesExit (applyOp s op) := by
  cases op with
  | create code name totalSpaces location hourlyFee =>
    simp only [applyOp]
    cases hres : createParkingApi s code name totalSpaces location hourlyFee with
    | error e => exact h
    | ok r =>
      obtain ⟨s2, p⟩ := r
      obtain ⟨-, -, hc⟩ := createParkingApi_ok hres
      obtain ⟨-, -, hs2⟩ := createParking_ok hc
      subst hs2
      exact h
  | update code name location totalSpaces hourlyFee =>
    simp only [applyOp]
    cases hres : updateParkingApi s code name location totalSpaces hourlyFee with
    | error e => exact h
    | ok r =>
      obtain ⟨s2, p⟩ := r
      obtain ⟨-, -, hu⟩ := updateParkingApi_ok hres
      obtain ⟨existing, -, -, hs2⟩ := updateParking_ok hu
      subst hs2
      exact h
  | entry plateNumber parkingCode now =>
    simp only [applyOp]
    cases hres : registerEntryApi s plateNumber parkingCode now with
    | error e => exact h
    | ok r =>
      obtain ⟨s2, e, tk⟩ := r
      obtain ⟨-, -, hre⟩ := registerEntryApi_ok hres
      obtain ⟨parking, -, -, -, hee, -, hs2⟩ := registerEntry_ok hre
      subst hs2
      intro e0 he0
      rcases List.mem_append.mp he0 with hl | hr
      · exact h e0 hl
      · simp only [List.mem_singleton] at hr
        subst hr
        rw [hee]
        simp
  | exit i now =>
    simp only [applyOp]
    cases hres : registerExit s i now with
    | error e => exact h
    | ok r =>
      obtain ⟨s2, e2, bill⟩ := r
      obtain ⟨entry, parking, hfind, -, -, he2, -, hs2⟩ := registerExit_ok hres
      subst hs2
      intro e0 he0
      obtain ⟨e1, he1, he1eq⟩ := List.mem_map.mp he0
      by_cases hcase : e1.id = i
      · rw [← he1eq]
        simp only [hcase, beq_self_eq_true, if_true]
        rw [he2]
        simp
      · rw [← he1eq]
        simp only [hcase, beq_iff_eq, if_neg hcase]
        exact h e1 he1

theorem chargeMatchesExit_runOps {s : Store} (h : chargeMatchesExit s) (ops : List Op) :
    chargeMatchesExit (runOps s ops) := by
  induction ops generalizing s with
  | nil => exact h
  | cons op ops ih => exact ih (chargeMatchesExit_applyOp h op)

/-- A closed entry is carried unchanged through every further API
operation: CLOSED is terminal. -/
theorem closedEntry_stable {s : Store} (hWF : EntriesWF s) {e : Entry}
    (he : e ∈ s.entries) (hc : e.exitDateTime.isSome) (op : Op) :
    e ∈ (applyOp s op).entries := by
  cases op with
  | create code name totalSpaces location hourlyFee =>
    simp only [applyOp]
    cases hres : createParkingApi s code name totalSpaces location hourlyFee with
    | error e' => exact he
    | ok r =>
      obtain ⟨s2, p⟩ := r
      obtain ⟨-, -, hcr⟩ := createParkingApi_ok hres
      obtain ⟨-, -, hs2⟩ := createParking_ok hcr
      subst hs2
      exact he
  | update code name location totalSpaces hourlyFee =>
    simp only [applyOp]
    cases hres : updateParkingApi s code name location totalSpaces hourlyFee with
    | error e' => exact he
    | ok r =>
      obtain ⟨s2, p⟩ := r
      obtain ⟨-, -, hu⟩ := updateParkingApi_ok hres
      obtain ⟨existing, -, -, hs2⟩ := updateParking_ok hu
      subst hs2
      exact he
  | entry plateNumber parkingCode now =>
    simp only [applyOp]
    cases hres : registerEntryApi s plateNumber parkingCode now with
    | error e' => exact he
    | ok r =>
      obtain ⟨s2, e1, tk⟩ := r
      obtain ⟨-, -, hre⟩ := registerEntryApi_ok hres
      obtain ⟨parking, -, -, -, -, -, hs2⟩ := registerEntry_ok hre
      subst hs2
      exact List.mem_append_left _ he
  | exit i now =>
    simp only [applyOp]
    cases hres : registerExit s i now with
    | error e' => exact he
    | ok r =>
      obtain ⟨s2, e2, bill⟩ := r
      obtain ⟨entry, parking, hfind, hopen, -, -, -, hs2⟩ := registerExit_ok hres
      subst hs2
      have hne : e.id ≠ i := by
        intro heq
        obtain ⟨hmem, hide⟩ := findEntry_some hfind
        have : e = entry := List.inj_on_of_nodup_map hWF.ids_nodup he hmem (by omega)
        rw [this, hopen] at hc
        simp at hc
      exact List.mem_map.mpr ⟨e, he, by simp [hne]⟩

theorem closedEntry_stable_runOps {s : Store} (hWF : EntriesWF s) {e : Entry}
    (he : e ∈ s.entries) (hc : e.exitDateTime.isSome) (ops : List Op) :
    e ∈ (runOps s ops).entries := by
  induction ops generalizing s with
  | nil => exact he
  | cons op ops ih =>
    exact ih (entriesWF_applyOp hWF op) (closedEntry_stable hWF he hc op)

theorem registerExit_conflict_of_closed {s : Store} {i : ℕ} {e : Entry}
    (hfind : findEntry s i = some e) (hc : e.exitDateTime.isSome) (now : ℤ) :
    registerExit s i now = Except.error ApiError.conflict := by
  unfold registerExit
  rw [hfind]
  simp [hc]

/-! ### The space ledger invariant -/

/-- The full inductive invariant of reachable stores: unique parking
codes, wellformed entry ids, the accounting equation
`availableSpaces + openCount = totalSpaces`, non-negative availability,
and open entries referencing existing parkings. -/
structure StoreWF (s : Store) : Prop where
  entriesOk : EntriesWF s
  codes_nodup : (s.parkings.map Parking.code).Nodup
  accounting : ∀ p ∈ s.parkings, p.availableSpaces + (openCount s p.code : ℤ) = p.totalSpaces
  avail_nonneg : ∀ p ∈ s.parkings, 0 ≤ p.availableSpaces
  open_ref : ∀ e ∈ s.entries, e.exitDateTime = none → ∃ p ∈ s.parkings, p.code = e.parkingCode

theorem storeWF_parkingInv {s : Store} (h : StoreWF s) : parkingInv s := by
  intro p hp
  refine ⟨h.avail_nonneg p hp, ?_⟩
  have hacc := h.accounting p hp
  have : (0 : ℤ) ≤ (openCount s p.code : ℤ) := Int.natCast_nonneg _
  omega

theorem emptyStore_storeWF : StoreWF emptyStore := by
  refine ⟨⟨?_, ?_⟩, ?_, ?_, ?_, ?_⟩ <;> simp [emptyStore]

theorem storeWF_create {s : Store} (h : StoreWF s) (code name : String)
    (totalSpaces : ℤ) (location : String) (hourlyFee : ℚ) :
    StoreWF (applyOp s (Op.create code name totalSpaces location hourlyFee)) := by
  simp only [applyOp]
  cases hres : createParkingApi s code name totalSpaces location hourlyFee with
  | error e => exact h
  | ok r =>
    obtain ⟨s2, newp⟩ := r
    obtain ⟨ht1, hf0, hc⟩ := createParkingApi_ok hres
    obtain ⟨hnone, hnewp, hs2⟩ := createParking_ok hc
    subst hnewp
    subst hs2
    have hopen0 : openCount s code = 0 := by
      rw [openCount, List.countP_eq_zero]
      intro e he hopen
      simp only [isOpenFor, Bool.and_eq_true, beq_iff_eq, Option.isNone_iff_eq_none] at hopen
      obtain ⟨p, hp, hpc⟩ := h.open_ref e he hopen.2
      exact findParking_none hnone p hp (by rw [hpc, hopen.1])
    refine ⟨⟨h.entriesOk.ids_nodup, h.entriesOk.ids_lt⟩, ?_, ?_, ?_, ?_⟩
    · simp only [List.map_append, List.map_cons, List.map_nil]
      rw [List.nodup_append]
      refine ⟨h.codes_nodup, List.nodup_singleton _, ?_⟩
      intro a ha hb
      simp only [List.mem_singleton] at hb
      obtain ⟨p, hp, hpc⟩ := List.mem_map.mp ha
      subst hb
      exact findParking_none hnone p hp (by rw [hpc])
    · intro p hp
      rcases List.mem_append.mp hp with hl | hr
      · exact h.accounting p hl
      · simp only [List.mem_singleton] at hr
        subst hr
        show totalSpaces + (openCount s code : ℤ) = totalSpaces
        rw [hopen0]
        simp
    · intro p hp
      rcases List.mem_append.mp hp with hl | hr
      · exact h.avail_nonneg p hl
      · simp only [List.mem_singleton] at hr
        subst hr
        show (0 : ℤ) ≤ totalSpaces
        omega
    · intro e he hopen
      obtain ⟨p, hp, hpc⟩ := h.open_ref e he hopen
      exact ⟨p, List.mem_append_left _ hp, hpc⟩

theorem storeWF_update {s : Store} (h : StoreWF s) (code : String)
    (name location : Option String) (totalSpaces : Option ℤ) (hourlyFee : Option ℚ)
    (hsafe : opSafe s (Op.update code name location totalSpaces hourlyFee) = true) :
    StoreWF (applyOp s (Op.update code name location totalSpaces hourlyFee)) := by
  simp only [applyOp]
  cases hres : updateParkingApi s code name location totalSpaces hourlyFee with
  | error e => exact h
  | ok r =>
    obtain ⟨s2, upd⟩ := r
    obtain ⟨htmin, hfmin, hu⟩ := updateParkingApi_ok hres
    obtain ⟨existing, hfind, hupd, hs2⟩ := updateParking_ok hu
    subst hs2
    obtain ⟨hexmem, hexcode⟩ := findParking_some hfind
    have hcodeeq : upd.code = existing.code := by rw [hupd]
    have hsafe2 : ∀ t, totalSpaces = some t → existing.totalSpaces ≤ t := by
      intro t ht
      simp only [opSafe] at hsafe
      rw [ht, hfind] at hsafe
      simpa using hsafe
    have hadj : upd.availableSpaces =
        existing.availableSpaces + availAdjustment totalSpaces existing.totalSpaces := by
      rw [hupd]
    have htot : upd.totalSpaces = jsOrInt totalSpaces existing.totalSpaces := by
      rw [hupd]
    have hmapcode : ∀ p ∈ s.parkings,
        ((fun p => if p.code == code then upd else p) p).code = p.code := by
      intro p hp
      by_cases hc : p.code = code
      · simp [hc, hcodeeq, hexcode]
      · simp [hc]
    have hkey : ∀ p ∈ s.parkings, p.code = code → p = existing := by
      intro p hp hc
      exact List.inj_on_of_nodup_map h.codes_nodup hp hexmem (by rw [hc, hexcode])
    refine ⟨⟨h.entriesOk.ids_nodup, h.entriesOk.ids_lt⟩, ?_, ?_, ?_, ?_⟩
    · rw [codes_map_eq hmapcode]
      exact h.codes_nodup
    · intro p' hp'
      obtain ⟨p, hp, hpeq⟩ := List.mem_map.mp hp'
      by_cases hc : p.code = code
      · have hpex := hkey p hp hc
        have hp'upd : p' = upd := by rw [← hpeq]; simp [hc]
        subst hp'upd
        have hacc := h.accounting existing hexmem
        show p'.availableSpaces + (openCount s p'.code : ℤ) = p'.totalSpaces
        rw [hcodeeq, hadj, htot]
        cases httot : totalSpaces with
        | none => simp only [availAdjustment, jsOrInt]; omega
        | some t =>
          have h1t := htmin t httot
          have hts := hsafe2 t httot
          simp only [availAdjustment, jsOrInt]
          by_cases hteq : t = existing.totalSpaces
          · rw [if_pos hteq, if_neg (by omega)]
            omega
          · rw [if_neg hteq, if_neg (by omega)]
            omega
      · have hp'p : p' = p := by rw [← hpeq]; simp [hc]
        rw [hp'p]
        show p.availableSpaces + (openCount s p.code : ℤ) = p.totalSpaces
        exact h.accounting p hp
    · intro p' hp'
      obtain ⟨p, hp, hpeq⟩ := List.mem_map.mp hp'
      by_cases hc : p.code = code
      · have hpex := hkey p hp hc
        have hp'upd : p' = upd := by rw [← hpeq]; simp [hc]
        subst hp'upd
        have hnn := h.avail_nonneg existing hexmem
        show (0 : ℤ) ≤ p'.availableSpaces
        rw [hadj]
        cases httot : totalSpaces with
        | none => simp only [availAdjustment]; omega
        | some t =>
          have hts := hsafe2 t httot
          simp only [availAdjustment]
          by_cases hteq : t = existing.totalSpaces
          · rw [if_pos hteq]; omega
          · rw [if_neg hteq]; omega
      · have hp'p : p' = p := by rw [← hpeq]; simp [hc]
        rw [hp'p]
        exact h.avail_nonneg p hp
    · intro e he hopen
      obtain ⟨p, hp, hpc⟩ := h.open_ref e he hopen
      refine ⟨(fun p => if p.code == code then upd else p) p,
        List.mem_map_of_mem _ hp, ?_⟩
      rw [hmapcode p hp, hpc]

theorem storeWF_entry {s : Store} (h : StoreWF s) (plateNumber parkingCode : String)
    (now : ℤ) : StoreWF (applyOp s (Op.entry plateNumber parkingCode now)) := by
  have hE := entriesWF_applyOp h.entriesOk (Op.entry plateNumber parkingCode now)
  simp only [applyOp] at hE ⊢
  cases hres : registerEntryApi s plateNumber parkingCode now with
  | error e => exact h
  | ok r =>
    obtain ⟨s2, newe, tk⟩ := r
    rw [hres] at hE
    obtain ⟨-, -, hre⟩ := registerEntryApi_ok hres
    obtain ⟨parking, hfind, hcap, hactive, hee, -, hs2⟩ := registerEntry_ok hre
    obtain ⟨hpkmem, hpkcode⟩ := findParking_some hfind
    subst hs2
    have hmapcode : ∀ p ∈ s.parkings,
        ((fun p => if p.code == parkingCode
          then { p with availableSpaces := p.availableSpaces - 1 } else p) p).code
          = p.code := by
      intro p hp
      by_cases hc : p.code = parkingCode <;> simp [hc]
    have hcount : ∀ c : String, ((s.entries ++ [newe]).countP (isOpenFor c) : ℤ)
        = (openCount s c : ℤ) + (if parkingCode = c then 1 else 0) := by
      intro c
      rw [List.countP_append]
      have hsing : List.countP (isOpenFor c) [newe] = if isOpenFor c newe then 1 else 0 := by
        rw [List.countP_cons]
        simp
      have hop : isOpenFor c newe = (parkingCode == c) := by
        rw [hee]
        simp [isOpenFor]
      rw [hsing, hop]
      by_cases hc : parkingCode = c <;> simp [hc, openCount]
    refine ⟨hE, ?_, ?_, ?_, ?_⟩
    · rw [codes_map_eq hmapcode]
      exact h.codes_nodup
    · intro p' hp'
      obtain ⟨p, hp, hpeq⟩ := List.mem_map.mp hp'
      have hacc := h.accounting p hp
      by_cases hc : p.code = parkingCode
      · have hp'eq : p' = { p with availableSpaces := p.availableSpaces - 1 } := by
          rw [← hpeq]; simp [hc]
        have f1 : p'.code = p.code := by rw [hp'eq]
        have f2 : p'.availableSpaces = p.availableSpaces - 1 := by rw [hp'eq]
        have f3 : p'.totalSpaces = p.totalSpaces := by rw [hp'eq]
        show p'.availableSpaces +
            (((s.entries ++ [newe]).countP (isOpenFor p'.code) : ℕ) : ℤ) = p'.totalSpaces
        rw [f1, f2, f3, hcount p.code, if_pos hc.symm]
        omega
      · have hp'p : p' = p := by rw [← hpeq]; simp [hc]
        rw [hp'p]
        show p.availableSpaces +
            (((s.entries ++ [newe]).countP (isOpenFor p.code) : ℕ) : ℤ) = p.totalSpaces
        rw [hcount p.code, if_neg (fun heq => hc heq.symm)]
        omega
    · intro p' hp'
      obtain ⟨p, hp, hpeq⟩ := List.mem_map.mp hp'
      have hnn := h.avail_nonneg p hp
      by_cases hc : p.code = parkingCode
      · have hppk : p = parking :=
          List.inj_on_of_nodup_map h.codes_nodup hp hpkmem (by rw [hc, hpkcode])
        have hp'eq : p' = { p with availableSpaces := p.availableSpaces - 1 } := by
          rw [← hpeq]; simp [hc]
        have f2 : p'.availableSpaces = p.availableSpaces - 1 := by rw [hp'eq]
        show (0 : ℤ) ≤ p'.availableSpaces
        rw [f2, hppk]
        omega
      · have hp'p : p' = p := by rw [← hpeq]; simp [hc]
        rw [hp'p]
        exact hnn
    · intro e0 he0 hopen
      rcases List.mem_append.mp he0 with hl | hr
      · obtain ⟨p, hp, hpc⟩ := h.open_ref e0 hl hopen
        exact ⟨_, List.mem_map_of_mem _ hp, by rw [hmapcode p hp, hpc]⟩
      · simp only [List.mem_singleton] at hr
        subst hr
        refine ⟨_, List.mem_map_of_mem _ hpkmem, ?_⟩
        rw [hmapcode parking hpkmem, hpkcode, hee]

theorem storeWF_exit {s : Store} (h : StoreWF s) (i : ℕ) (now : ℤ) :
    StoreWF (applyOp s (Op.exit i now)) := by
  have hE := entriesWF_applyOp h.entriesOk (Op.exit i now)
  simp only [applyOp] at hE ⊢
  cases hres : registerExit s i now with
  | error e => exact h
  | ok r =>
    obtain ⟨s2, e2, bill⟩ := r
    rw [hres] at hE
    obtain ⟨entry, parking, hfind, hopen, hpark, he2, -, hs2⟩ := registerExit_ok hres
    obtain ⟨hentmem, hentid⟩ := findEntry_some hfind
    obtain ⟨hpkmem, hpkcode⟩ := findParking_some hpark
    subst hs2
    have hmapcode : ∀ p ∈ s.parkings,
        ((fun p => if p.code == entry.parkingCode
          then { p with availableSpaces := p.availableSpaces + 1 } else p) p).code
          = p.code := by
      intro p hp
      by_cases hc : p.code = entry.parkingCode <;> simp [hc]
    have hcount : ∀ c : String,
        (((s.entries.map (fun e => if e.id == i then e2 else e)).countP (isOpenFor c) : ℕ) : ℤ)
          = (openCount s c : ℤ) - (if entry.parkingCode = c then 1 else 0) := by
      intro c
      rw [countP_map_update (isOpenFor c) h.entriesOk.ids_nodup hentmem hentid]
      have hop2 : isOpenFor c e2 = false := by
        rw [he2]
        simp [isOpenFor]
      have hop1 : isOpenFor c entry = (entry.parkingCode == c) := by
        simp [isOpenFor, hopen]
      rw [hop2, hop1]
      by_cases hc : entry.parkingCode = c <;> simp [hc, openCount]
    refine ⟨hE, ?_, ?_, ?_, ?_⟩
    · rw [codes_map_eq hmapcode]
      exact h.codes_nodup
    · intro p' hp'
      obtain ⟨p, hp, hpeq⟩ := List.mem_map.mp hp'
      have hacc := h.accounting p hp
      by_cases hc : p.code = entry.parkingCode
      · have hp'eq : p' = { p with availableSpaces := p.availableSpaces + 1 } := by
          rw [← hpeq]; simp [hc]
        have f1 : p'.code = p.code := by rw [hp'eq]
        have f2 : p'.availableSpaces = p.availableSpaces + 1 := by rw [hp'eq]
        have f3 : p'.totalSpaces = p.totalSpaces := by rw [hp'eq]
        show p'.availableSpaces +
            (((s.entries.map (fun e => if e.id == i then e2 else e)).countP
              (isOpenFor p'.code) : ℕ) : ℤ) = p'.totalSpaces
        rw [f1, f2, f3, hcount p.code, if_pos hc.symm]
        -- the closed entry was open and in this parking, so its open count is positive
        have hpos : 0 < openCount s p.code := by
          rw [openCount]
          apply List.countP_pos_iff.mpr
          exact ⟨entry, hentmem, by simp [isOpenFor, hopen, hc]⟩
        omega
      · have hp'p : p' = p := by rw [← hpeq]; simp [hc]
        rw [hp'p]
        show p.availableSpaces +
            (((s.entries.map (fun e => if e.id == i then e2 else e)).countP
              (isOpenFor p.code) : ℕ) : ℤ) = p.totalSpaces
        rw [hcount p.code, if_neg (fun heq => hc heq.symm)]
        omega
    · intro p' hp'
      obtain ⟨p, hp, hpeq⟩ := List.mem_map.mp hp'
      have hnn := h.avail_nonneg p hp
      by_cases hc : p.code = entry.parkingCode
      · have hp'eq : p' = { p with availableSpaces := p.availableSpaces + 1 } := by
          rw [← hpeq]; simp [hc]
        have f2 : p'.availableSpaces = p.availableSpaces + 1 := by rw [hp'eq]
        show (0 : ℤ) ≤ p'.availableSpaces
        rw [f2]
        omega
      · have hp'p : p' = p := by rw [← hpeq]; simp [hc]
        rw [hp'p]
        exact hnn
    · intro e0 he0 hopen0
      obtain ⟨e1, he1, he1eq⟩ := List.mem_map.mp he0
      by_cases h1 : e1.id = i
      · exfalso
        rw [← he1eq] at hopen0
        simp only [h1, beq_self_eq_true, if_true] at hopen0
        rw [he2] at hopen0
        simp at hopen0
      · have he0e1 : e0 = e1 := by rw [← he1eq]; simp [h1]
        obtain ⟨p, hp, hpc⟩ := h.open_ref e1 he1 (by rw [← he0e1]; exact hopen0)
        refine ⟨_, List.mem_map_of_mem _ hp, ?_⟩
        rw [hmapcode p hp, hpc, he0e1]

theorem storeWF_applyOp {s : Store} (h : StoreWF s) (op : Op)
    (hsafe : opSafe s op = true) : StoreWF (applyOp s op) := by
  cases op with
  | create code name totalSpaces location hourlyFee =>
    exact storeWF_create h code name totalSpaces location hourlyFee
  | update code name location totalSpaces hourlyFee =>
    exact storeWF_update h code name location totalSpaces hourlyFee hsafe
  | entry plateNumber parkingCode now => exact storeWF_entry h plateNumber parkingCode now
  | exit i now => exact storeWF_exit h i now

theorem storeWF_runOps {s : Store} (h : StoreWF s) {ops : List Op}
    (hsafe : safeOps s ops = true) : StoreWF (runOps s ops) := by
  induction ops generalizing s with
  | nil => exact h
  | cons op ops ih =>
    simp only [safeOps, Bool.and_eq_true] at hsafe
    exact ih (storeWF_applyOp h op hsafe.1) hsafe.2

/-! ### Claim theorems -/

/-- C3: the fee calculation returns zero whenever the hourly fee is absent
or non-positive, the entry instant is absent or unparseable, the exit
instant is invalid, or the exit strictly precedes the entry; and the
computed charge is never negative. -/
theorem calculateParkingFee_defensive_zero (hourlyFee : Option ℚ)
    (entryDateTime exitDateTime : Option DateInput) (now : ℤ) :
    (hourlyFee = none →
      calculateParkingFee hourlyFee entryDateTime exitDateTime now = 0) ∧
    (∀ f, hourlyFee = some f → f ≤ 0 →
      calculateParkingFee hourlyFee entryDateTime exitDateTime now = 0) ∧
    (entryDateTime = none →
      calculateParkingFee hourlyFee entryDateTime exitDateTime now = 0) ∧
    (entryDateTime = some DateInput.invalid →
      calculateParkingFee hourlyFee entryDateTime exitDateTime now = 0) ∧
    (exitDateTime = some DateInput.invalid →
      calculateParkingFee hourlyFee entryDateTime exitDateTime now = 0) ∧
    (∀ entryMs exitMs, entryDateTime = some (DateInput.valid entryMs) →
      exitDateTime = some (DateInput.valid exitMs) → exitMs < entryMs →
      calculateParkingFee hourlyFee entryDateTime exitDateTime now = 0) ∧
    0 ≤ calculateParkingFee hourlyFee entryDateTime exitDateTime now := by
  refine ⟨?_, ?_, ?_, ?_, ?_, ?_, ?_⟩
  · intro h
    subst h
    simp [calculateParkingFee]
  · intro f hf hle
    subst hf
    simp [calculateParkingFee, hle]
  · intro h
    subst h
    simp [calculateParkingFee]
  · intro h
    subst h
    unfold calculateParkingFee
    split
    · rfl
    · simp
  · intro h
    subst h
    unfold calculateParkingFee
    split
    · rfl
    · cases hentry : entryDateTime.getD DateInput.invalid with
      | invalid => simp
      | valid entryMs => simp
  · intro entryMs exitMs hentry hexit hlt
    subst hentry
    subst hexit
    unfold calculateParkingFee
    split
    · rfl
    · simp [hlt]
  · unfold calculateParkingFee
    split
    · exact le_refl 0
    · rename_i hguard
      push_neg at hguard
      obtain ⟨-, hfee, -⟩ := hguard
      cases hentry : entryDateTime.getD DateInput.invalid with
      | invalid => simp
      | valid entryMs =>
        cases hexit : exitDateTime.getD (DateInput.valid now) with
        | invalid => simp
        | valid exitMs =>
          simp only
          split
          · exact le_refl 0
          · rename_i hge
            push_neg at hge
            have hceil : (0 : ℤ) ≤ ⌈((exitMs - entryMs : ℤ) : ℚ) / (1000 * 60) / 60⌉ := by
              apply Int.ceil_nonneg
              have hint : (0 : ℤ) ≤ exitMs - entryMs := by omega
              have : (0 : ℚ) ≤ ((exitMs - entryMs : ℤ) : ℚ) := by exact_mod_cast hint
              positivity
            have : (0 : ℚ) ≤ (⌈((exitMs - entryMs : ℤ) : ℚ) / (1000 * 60) / 60⌉ : ℚ) := by
              exact_mod_cast hceil
            exact mul_nonneg this (le_of_lt hfee)

/-- C1 counterexample: at a duration of one hour and one millisecond the
code charges two hours, while the claim's whole-minute formula (truncate
to 60 minutes, then ceil 60/60 = 1) charges one. -/
theorem calculateParkingFee_minute_truncation_cex :
    calculateParkingFee (some 1) (some (DateInput.valid 0))
      (some (DateInput.valid 3600001)) 0 = 2 ∧
    specFeeWholeMinutes 1 3600001 = 1 ∧
    calculateParkingFee (some 1) (some (DateInput.valid 0))
      (some (DateInput.valid 3600001)) 0 ≠ specFeeWholeMinutes 1 3600001 := by
  have h1 : calculateParkingFee (some 1) (some (DateInput.valid 0))
      (some (DateInput.valid 3600001)) 0 = 2 := by
    unfold calculateParkingFee
    norm_num
    rw [show (⌈(3600001 / 3600000 : ℚ)⌉ : ℤ) = 2 by
      rw [Int.ceil_eq_iff]; norm_num]
    norm_num
  have h2 : specFeeWholeMinutes 1 3600001 = 1 := by
    unfold specFeeWholeMinutes
    rw [show (3600001 : ℤ).fdiv 60000 = 60 by decide]
    norm_num
  refine ⟨h1, h2, ?_⟩
  rw [h1, h2]
  norm_num

/-- The closed form of the fee computation on valid inputs: the
milliseconds duration is divided by 3600000 and rounded up. -/
theorem calculateParkingFee_eq_ceil (fee : ℚ) (entryMs exitMs now : ℤ)
    (hfee : 0 ≤ fee) (hle : entryMs ≤ exitMs) :
    calculateParkingFee (some fee) (some (DateInput.valid entryMs))
        (some (DateInput.valid exitMs)) now
      = (⌈((exitMs - entryMs : ℤ) : ℚ) / (1000 * 60 * 60)⌉ : ℚ) * fee := by
  have harg : ((exitMs - entryMs : ℤ) : ℚ) / (1000 * 60) / 60
      = ((exitMs - entryMs : ℤ) : ℚ) / (1000 * 60 * 60) := by
    rw [div_div]
  by_cases h0 : fee = 0
  · subst h0
    simp [calculateParkingFee]
  · have hpos : 0 < fee := lt_of_le_of_ne hfee (fun heq => h0 heq.symm)
    unfold calculateParkingFee
    rw [if_neg (by simpa using hpos)]
    simp only [Option.getD_some]
    rw [if_neg (not_lt.mpr hle)]
    show ((⌈((exitMs - entryMs : ℤ) : ℚ) / (1000 * 60) / 60⌉ : ℤ) : ℚ) * fee
        = (⌈((exitMs - entryMs : ℤ) : ℚ) / (1000 * 60 * 60)⌉ : ℚ) * fee
    rw [harg]

/-- C1 (amended): for every non-negative fee and exit at or after entry,
the charge is ceil(duration_ms / 3600000) * fee — the ceiling is taken
over the exact millisecond duration, not over whole truncated minutes; a
minimum of one hour is charged for any positive duration; the 65-minute
stay at fee 2.5 is charged 5.0 and the 1-minute stay 2.5; registerExit
bills its parking's fee times the same rounded-up hours. -/
theorem calculateParkingFee_ms_ceiling (fee : ℚ) (entryMs exitMs now : ℤ)
    (hfee : 0 ≤ fee) (hle : entryMs ≤ exitMs) :
    (calculateParkingFee (some fee) (some (DateInput.valid entryMs))
        (some (DateInput.valid exitMs)) now
      = (⌈((exitMs - entryMs : ℤ) : ℚ) / (1000 * 60 * 60)⌉ : ℚ) * fee) ∧
    (entryMs < exitMs →
      fee ≤ calculateParkingFee (some fee) (some (DateInput.valid entryMs))
        (some (DateInput.valid exitMs)) now) ∧
    (calculateParkingFee (some (5/2)) (some (DateInput.valid 0))
        (some (DateInput.valid (65 * 60000))) 0 = 5) ∧
    (calculateParkingFee (some (5/2)) (some (DateInput.valid 0))
        (some (DateInput.valid 60000)) 0 = 5/2) ∧
    (∀ s i now2 s2 e2 bill, registerExit s i now2 = Except.ok (s2, e2, bill) →
      e2.chargedAmount = some (bill.hourlyFee * (bill.durationInHours : ℚ))) := by
  refine ⟨calculateParkingFee_eq_ceil fee entryMs exitMs now hfee hle, ?_, ?_, ?_, ?_⟩
  · intro hlt
    rw [calculateParkingFee_eq_ceil fee entryMs exitMs now hfee hle]
    have hdpos : (0 : ℚ) < ((exitMs - entryMs : ℤ) : ℚ) / (1000 * 60 * 60) := by
      have hint : (0 : ℤ) < exitMs - entryMs := by omega
      have : (0 : ℚ) < ((exitMs - entryMs : ℤ) : ℚ) := by exact_mod_cast hint
      positivity
    have hone : (1 : ℤ) ≤ ⌈((exitMs - entryMs : ℤ) : ℚ) / (1000 * 60 * 60)⌉ :=
      Int.ceil_pos.mpr hdpos
    have honeq : (1 : ℚ) ≤ (⌈((exitMs - entryMs : ℤ) : ℚ) / (1000 * 60 * 60)⌉ : ℚ) := by
      exact_mod_cast hone
    exact le_mul_of_one_le_left hfee honeq
  · rw [calculateParkingFee_eq_ceil (5/2) 0 (65 * 60000) 0 (by norm_num) (by norm_num)]
    rw [show ((65 * 60000 - 0 : ℤ) : ℚ) / (1000 * 60 * 60) = 13 / 12 by norm_num]
    rw [show (⌈(13 / 12 : ℚ)⌉ : ℤ) = 2 by rw [Int.ceil_eq_iff]; norm_num]
    norm_num
  · rw [calculateParkingFee_eq_ceil (5/2) 0 60000 0 (by norm_num) (by norm_num)]
    rw [show ((60000 - 0 : ℤ) : ℚ) / (1000 * 60 * 60) = 1 / 60 by norm_num]
    rw [show (⌈(1 / 60 : ℚ)⌉ : ℤ) = 1 by rw [Int.ceil_eq_iff]; norm_num]
    norm_num
  · intro s i now2 s2 e2 bill h
    obtain ⟨entry, parking, -, -, -, he2, hbill, -⟩ := registerExit_ok h
    rw [he2, hbill]

/-- Witness for C1's amended theorem at fee 1 and a one-hour stay. -/
theorem calculateParkingFee_ms_ceiling_witness :
    (0 : ℚ) ≤ 1 ∧ (0 : ℤ) ≤ 3600000 ∧
    calculateParkingFee (some 1) (some (DateInput.valid 0))
        (some (DateInput.valid 3600000)) 0
      = (⌈((3600000 - 0 : ℤ) : ℚ) / (1000 * 60 * 60)⌉ : ℚ) * 1 :=
  ⟨by decide, by decide,
    (calculateParkingFee_ms_ceiling 1 0 3600000 0 (by decide) (by decide)).1⟩

/-- C4: registerEntry fails with NotFound (404) on an unknown parking
code, with NoCapacity (400) when the parking has no available space, with
Conflict (409) when an open entry for the same plate and parking exists,
and on every failure the store is unchanged (no entry created, no
decrement). -/
theorem registerEntry_failure_cases (s : Store) (plateNumber parkingCode : String)
    (now : ℤ) :
    (findParking s parkingCode = none →
      registerEntry s plateNumber parkingCode now = Except.error ApiError.notFound ∧
      ApiError.notFound.httpStatus = 404) ∧
    (∀ parking, findParking s parkingCode = some parking →
      parking.availableSpaces = 0 →
      registerEntry s plateNumber parkingCode now = Except.error ApiError.noCapacity ∧
      ApiError.noCapacity.httpStatus = 400) ∧
    (∀ parking, findParking s parkingCode = some parking →
      0 < parking.availableSpaces →
      (∃ e ∈ s.entries, e.plateNumber = plateNumber ∧ e.parkingCode = parkingCode ∧
        e.exitDateTime = none) →
      registerEntry s plateNumber parkingCode now = Except.error ApiError.conflict ∧
      ApiError.conflict.httpStatus = 409) ∧
    (∀ err, registerEntry s plateNumber parkingCode now = Except.error err →
      applyOp s (Op.entry plateNumber parkingCode now) = s) := by
  refine ⟨?_, ?_, ?_, ?_⟩
  · intro h
    constructor
    · unfold registerEntry
      rw [h]
    · rfl
  · intro parking hp h0
    constructor
    · unfold registerEntry
      simp only [hp]
      rw [if_pos (show parking.availableSpaces ≤ 0 by omega)]
    · rfl
  · intro parking hp hpos hex
    obtain ⟨e, he, hpl, hpc, hopen⟩ := hex
    have hsome : (s.entries.find? (fun e =>
        e.plateNumber == plateNumber && e.parkingCode == parkingCode &&
          e.exitDateTime.isNone)).isSome :=
      List.find?_isSome.mpr ⟨e, he, by simp [hpl, hpc, hopen]⟩
    obtain ⟨a, ha⟩ := Option.isSome_iff_exists.mp hsome
    have ha2 : findActiveEntry s plateNumber parkingCode = some a := ha
    constructor
    · unfold registerEntry
      simp only [hp]
      rw [if_neg (show ¬ parking.availableSpaces ≤ 0 by omega)]
      simp only [ha2]
    · rfl
  · intro err herr
    by_cases hval : plateNumber = "" ∨ parkingCode = ""
    · simp only [applyOp, registerEntryApi, if_pos hval]
    · simp only [applyOp, registerEntryApi, if_neg hval, herr]

/-- C5: registerExit fails with NotFound on an unknown entry id and with
Conflict on an already-closed entry, leaving the store unchanged on every
failure; and CLOSED is terminal: a closed entry survives every further
operation sequence unchanged, with every subsequent registerExit on it
failing with Conflict. -/
theorem registerExit_failure_cases_terminal (s : Store) (i : ℕ) (now : ℤ) :
    ((∀ e ∈ s.entries, e.id ≠ i) →
      registerExit s i now = Except.error ApiError.notFound ∧
      ApiError.notFound.httpStatus = 404) ∧
    (∀ e, findEntry s i = some e → e.exitDateTime.isSome →
      registerExit s i now = Except.error ApiError.conflict ∧
      ApiError.conflict.httpStatus = 409) ∧
    (∀ err, registerExit s i now = Except.error err →
      applyOp s (Op.exit i now) = s) ∧
    (EntriesWF s → ∀ e ∈ s.entries, e.exitDateTime.isSome → ∀ ops : List Op,
      e ∈ (runOps s ops).entries ∧
      ∀ now2, registerExit (runOps s ops) e.id now2
        = Except.error ApiError.conflict) := by
  refine ⟨?_, ?_, ?_, ?_⟩
  · intro h
    have hnone : findEntry s i = none := by
      rw [findEntry, List.find?_eq_none]
      intro e he
      simp [h e he]
    constructor
    · unfold registerExit
      rw [hnone]
    · rfl
  · intro e hfind hclosed
    exact ⟨registerExit_conflict_of_closed hfind hclosed now, rfl⟩
  · intro err herr
    simp only [applyOp]
    simp only [herr]
  · intro hWF e he hclosed ops
    have hmem := closedEntry_stable_runOps hWF he hclosed ops
    refine ⟨hmem, ?_⟩
    intro now2
    have hWF2 := entriesWF_runOps hWF ops
    exact registerExit_conflict_of_closed
      (findEntry_eq_self hWF2.ids_nodup hmem) hclosed now2

/-- A one-entry store whose single entry is already closed, used to
instantiate the C5 theorem. -/
def closedEntryStore : Store :=
  { parkings := [], entries := [⟨0, "RAA 001 A", "P1", 0, some 10, some 1⟩], nextId := 1 }

/-- Witness for C5: on a store with one closed entry, a further
registerExit fails with Conflict and the entry is still there. -/
theorem registerExit_failure_cases_terminal_witness :
    (⟨0, "RAA 001 A", "P1", 0, some 10, some 1⟩ : Entry) ∈ (runOps closedEntryStore []).entries ∧
    registerExit (runOps closedEntryStore []) 0 20 = Except.error ApiError.conflict := by
  have h := (registerExit_failure_cases_terminal closedEntryStore 0 20).2.2.2
    ⟨by decide, by decide⟩ ⟨0, "RAA 001 A", "P1", 0, some 10, some 1⟩
    (by decide) (by decide) []
  exact ⟨h.1, h.2 20⟩

/-- C9: in every state reachable from the empty store, an entry's
chargedAmount is set exactly when its exitDateTime is; registerEntry
creates entries with both fields null and registerExit sets both in the
same update. -/
theorem charged_iff_exited (ops : List Op) :
    (∀ e ∈ (runOps emptyStore ops).entries,
      (e.chargedAmount.isSome ↔ e.exitDateTime.isSome)) ∧
    (∀ s plateNumber parkingCode now s2 e tk,
      registerEntry s plateNumber parkingCode now = Except.ok (s2, e, tk) →
      e.exitDateTime = none ∧ e.chargedAmount = none) ∧
    (∀ s i now s2 e2 bill, registerExit s i now = Except.ok (s2, e2, bill) →
      e2.exitDateTime.isSome ∧ e2.chargedAmount.isSome) := by
  refine ⟨?_, ?_, ?_⟩
  · refine chargeMatchesExit_runOps ?_ ops
    intro e he
    simp [emptyStore] at he
  · intro s plateNumber parkingCode now s2 e tk h
    obtain ⟨parking, -, -, -, hee, -, -⟩ := registerEntry_ok h
    rw [hee]
    exact ⟨rfl, rfl⟩
  · intro s i now s2 e2 bill h
    obtain ⟨entry, parking, -, -, -, he2, -, -⟩ := registerExit_ok h
    rw [he2]
    exact ⟨rfl, rfl⟩

/-- A one-parking store used to instantiate the C9 theorem. -/
def oneParkingStore : Store :=
  { parkings := [⟨"P1", "Main", 1, 1, "Town", 1⟩], entries := [], nextId := 0 }

/-- Witness for C9: a concrete successful registerEntry yields an entry
with both exitDateTime and chargedAmount null. -/
theorem charged_iff_exited_witness :
    registerEntry oneParkingStore "RAA 001 A" "P1" 0 = Except.ok
      (⟨[⟨"P1", "Main", 1, 0, "Town", 1⟩], [⟨0, "RAA 001 A", "P1", 0, none, none⟩], 1⟩,
       ⟨0, "RAA 001 A", "P1", 0, none, none⟩, ⟨0, "RAA 001 A", "Main", 0, 1⟩) ∧
    ((⟨0, "RAA 001 A", "P1", 0, none, none⟩ : Entry).exitDateTime = none ∧
     (⟨0, "RAA 001 A", "P1", 0, none, none⟩ : Entry).chargedAmount = none) :=
  ⟨by decide, (charged_iff_exited []).2.1 oneParkingStore "RAA 001 A" "P1" 0
    ⟨[⟨"P1", "Main", 1, 0, "Town", 1⟩], [⟨0, "RAA 001 A", "P1", 0, none, none⟩], 1⟩
    ⟨0, "RAA 001 A", "P1", 0, none, none⟩ ⟨0, "RAA 001 A", "Main", 0, 1⟩ (by decide)⟩

/-- Witness for C3: an exit strictly before the entry yields charge 0. -/
theorem calculateParkingFee_defensive_zero_witness :
    calculateParkingFee (some 1) (some (DateInput.valid 100))
      (some (DateInput.valid 50)) 0 = 0 :=
  (calculateParkingFee_defensive_zero (some 1) (some (DateInput.valid 100))
    (some (DateInput.valid 50)) 0).2.2.2.2.2.1 100 50 rfl rfl (by decide)

/-- Witness for C4: entering an unknown parking code fails NotFound. -/
theorem registerEntry_failure_cases_witness :
    findParking emptyStore "NOPE" = none ∧
    (registerEntry emptyStore "RAA 001 A" "NOPE" 0 = Except.error ApiError.notFound ∧
     ApiError.notFound.httpStatus = 404) :=
  ⟨by decide, (registerEntry_failure_cases emptyStore "RAA 001 A" "NOPE" 0).1 (by decide)⟩

/-- C2 counterexample: create a parking with two spaces, register two
entries (availableSpaces 0), then administratively shrink totalSpaces to
1; the update decrements availableSpaces by the same delta and drives it
to -1, violating the invariant. All four requests pass route
validation. -/
theorem availability_invariant_cex :
    ¬ parkingInv (runOps emptyStore
      [Op.create "P1" "Main" 2 "Town" 1, Op.entry "RAA 001 A" "P1" 0,
       Op.entry "RAA 002 A" "P1" 0, Op.update "P1" none none (some 1) none]) := by
  decide

/-- C2 (amended): `0 <= availableSpaces <= totalSpaces` holds after every
sequence of API operations in which no administrative update shrinks a
parking's totalSpaces; an update that reduces totalSpaces below the
occupied count violates it. -/
theorem availability_invariant_no_shrink (ops : List Op)
    (hsafe : safeOps emptyStore ops = true) :
    parkingInv (runOps emptyStore ops) :=
  storeWF_parkingInv (storeWF_runOps emptyStore_storeWF hsafe)

/-- Witness for C2's amended theorem on a create/enter/exit/grow trace. -/
theorem availability_invariant_no_shrink_witness :
    safeOps emptyStore
      [Op.create "P1" "Main" 2 "Town" 1, Op.entry "RAA 001 A" "P1" 0,
       Op.exit 0 3600000, Op.update "P1" none none (some 5) none] = true ∧
    parkingInv (runOps emptyStore
      [Op.create "P1" "Main" 2 "Town" 1, Op.entry "RAA 001 A" "P1" 0,
       Op.exit 0 3600000, Op.update "P1" none none (some 5) none]) :=
  ⟨by decide, availability_invariant_no_shrink _ (by decide)⟩

/-- C7: a validated administrative update moves availableSpaces by
exactly the same delta as totalSpaces; a successful registerEntry
decrements its parking's availableSpaces by one and leaves every other
parking untouched; a successful registerExit increments its parking's
availableSpaces by one and leaves every other parking untouched. -/
theorem availableSpaces_delta_rules :
    (∀ s code name location totalSpaces hourlyFee s2 upd existing,
      updateParkingApi s code name location totalSpaces hourlyFee = Except.ok (s2, upd) →
      findParking s code = some existing →
      upd.availableSpaces - existing.availableSpaces
        = upd.totalSpaces - existing.totalSpaces) ∧
    (∀ s plateNumber parkingCode now s2 e tk,
      registerEntryApi s plateNumber parkingCode now = Except.ok (s2, e, tk) →
      ∀ p ∈ s.parkings,
        (p.code = parkingCode →
          ({ p with availableSpaces := p.availableSpaces - 1 } : Parking) ∈ s2.parkings) ∧
        (p.code ≠ parkingCode → p ∈ s2.parkings)) ∧
    (∀ s i now s2 e2 bill,
      registerExit s i now = Except.ok (s2, e2, bill) →
      ∀ p ∈ s.parkings,
        (p.code = e2.parkingCode →
          ({ p with availableSpaces := p.availableSpaces + 1 } : Parking) ∈ s2.parkings) ∧
        (p.code ≠ e2.parkingCode → p ∈ s2.parkings)) := by
  refine ⟨?_, ?_, ?_⟩
  · intro s code name location totalSpaces hourlyFee s2 upd existing hok hfind
    obtain ⟨htmin, -, hu⟩ := updateParkingApi_ok hok
    obtain ⟨existing2, hfind2, hupd, -⟩ := updateParking_ok hu
    have heq : existing2 = existing := by
      rw [hfind2] at hfind
      exact Option.some.inj hfind
    subst heq
    have h1 : upd.availableSpaces = existing2.availableSpaces +
        availAdjustment totalSpaces existing2.totalSpaces := by rw [hupd]
    have h2 : upd.totalSpaces = jsOrInt totalSpaces existing2.totalSpaces := by rw [hupd]
    rw [h1, h2]
    cases httot : totalSpaces with
    | none => simp [availAdjustment, jsOrInt]
    | some t =>
      have h1t := htmin t httot
      simp only [availAdjustment, jsOrInt]
      rw [if_neg (show ¬ t = 0 by omega)]
      by_cases hteq : t = existing2.totalSpaces
      · rw [if_pos hteq]
        omega
      · rw [if_neg hteq]
        omega
  · intro s plateNumber parkingCode now s2 e tk hok p hp
    obtain ⟨-, -, hre⟩ := registerEntryApi_ok hok
    obtain ⟨parking, -, -, -, -, -, hs2⟩ := registerEntry_ok hre
    subst hs2
    constructor
    · intro hc
      refine List.mem_map.mpr ⟨p, hp, ?_⟩
      simp [hc]
    · intro hc
      refine List.mem_map.mpr ⟨p, hp, ?_⟩
      simp [hc]
  · intro s i now s2 e2 bill hok p hp
    obtain ⟨entry, parking, -, -, -, he2, -, hs2⟩ := registerExit_ok hok
    have hpc : e2.parkingCode = entry.parkingCode := by rw [he2]
    subst hs2
    constructor
    · intro hc
      rw [hpc] at hc
      refine List.mem_map.mpr ⟨p, hp, ?_⟩
      simp [hc]
    · intro hc
      rw [hpc] at hc
      refine List.mem_map.mpr ⟨p, hp, ?_⟩
      simp [hc]

/-- A one-parking store used to instantiate the C7 theorem. -/
def deltaStore : Store :=
  { parkings := [⟨"P1", "Main", 5, 3, "Town", 1⟩], entries := [], nextId := 0 }

/-- Witness for C7: growing totalSpaces from 5 to 7 moves availableSpaces
from 3 to 5 — the same delta. -/
theorem availableSpaces_delta_rules_witness :
    updateParkingApi deltaStore "P1" none none (some 7) none = Except.ok
      (⟨[⟨"P1", "Main", 7, 5, "Town", 1⟩], [], 0⟩, ⟨"P1", "Main", 7, 5, "Town", 1⟩) ∧
    findParking deltaStore "P1" = some ⟨"P1", "Main", 5, 3, "Town", 1⟩ ∧
    (⟨"P1", "Main", 7, 5, "Town", 1⟩ : Parking).availableSpaces
        - (⟨"P1", "Main", 5, 3, "Town", 1⟩ : Parking).availableSpaces
      = (⟨"P1", "Main", 7, 5, "Town", 1⟩ : Parking).totalSpaces
        - (⟨"P1", "Main", 5, 3, "Town", 1⟩ : Parking).totalSpaces :=
  ⟨by decide, by decide,
    availableSpaces_delta_rules.1 deltaStore "P1" none none (some 7) none
      ⟨[⟨"P1", "Main", 7, 5, "Town", 1⟩], [], 0⟩ ⟨"P1", "Main", 7, 5, "Town", 1⟩
      ⟨"P1", "Main", 5, 3, "Town", 1⟩ (by decide) (by decide)⟩

/-- Creation of a 100-space parking followed by 30 vehicle entries. -/
def occupancyOps : List Op :=
  Op.create "P1" "Main" 100 "Town" 1 ::
    (List.range 30).map (fun k => Op.entry ("RAA " ++ toString k) "P1" 0)

set_option maxRecDepth 40000 in
/-- C8: each occupancy report row carries its parking's open-entry count
as occupiedSpaces and rate occupied/totalSpaces*100 (the rate equation is
stated for positive totalSpaces; at totalSpaces = 0 the JavaScript
division is not a number); every parking gets a row; and the parking with
totalSpaces 100 and 30 open entries reports rate 30. -/
theorem occupancy_report_correct :
    (∀ s : Store, ∀ row ∈ getParkingOccupancyReport s,
      ∃ p ∈ s.parkings, row.parkingCode = p.code ∧ row.parkingName = p.name ∧
        row.totalSpaces = p.totalSpaces ∧ row.availableSpaces = p.availableSpaces ∧
        row.occupiedSpaces = (openCount s p.code : ℤ) ∧
        (0 < p.totalSpaces →
          row.occupancyRate = ((openCount s p.code : ℚ) / (p.totalSpaces : ℚ)) * 100)) ∧
    (∀ s : Store, ∀ p ∈ s.parkings, ∃ row ∈ getParkingOccupancyReport s,
      row.parkingCode = p.code) ∧
    (∀ row ∈ getParkingOccupancyReport (runOps emptyStore occupancyOps),
      row.totalSpaces = 100 ∧ row.occupiedSpaces = 30 ∧ row.occupancyRate = 30) := by
  refine ⟨?_, ?_, ?_⟩
  · intro s row hrow
    obtain ⟨p, hp, hpeq⟩ := List.mem_map.mp hrow
    refine ⟨p, hp, by rw [← hpeq], by rw [← hpeq], by rw [← hpeq], by rw [← hpeq], ?_, ?_⟩
    · rw [← hpeq]
      show ((s.entries.filter (isOpenFor p.code)).length : ℤ) = (openCount s p.code : ℤ)
      rw [openCount, List.countP_eq_length_filter]
    · intro hpos
      rw [← hpeq]
      show (((s.entries.filter (isOpenFor p.code)).length : ℕ) : ℚ) / (p.totalSpaces : ℚ) * 100
        = ((openCount s p.code : ℕ) : ℚ) / (p.totalSpaces : ℚ) * 100
      rw [openCount, List.countP_eq_length_filter]
  · intro s p hp
    exact ⟨_, List.mem_map_of_mem _ hp, rfl⟩
  · intro row hrow
    have hps : (runOps emptyStore occupancyOps).parkings
        = [⟨"P1", "Main", 100, 70, "Town", 1⟩] := by decide
    have hlen : ((runOps emptyStore occupancyOps).entries.filter (isOpenFor "P1")).length
        = 30 := by decide
    simp only [getParkingOccupancyReport, hps, List.map_cons, List.map_nil,
      List.mem_singleton] at hrow
    subst hrow
    refine ⟨rfl, ?_, ?_⟩
    · show (((runOps emptyStore occupancyOps).entries.filter (isOpenFor "P1")).length : ℤ) = 30
      rw [hlen]
      norm_num
    · show ((((runOps emptyStore occupancyOps).entries.filter
          (isOpenFor "P1")).length : ℕ) : ℚ) / ((100 : ℤ) : ℚ) * 100 = 30
      rw [hlen]
      norm_num

/-- Creation of a 50-space parking followed by 50 vehicle entries with
distinct plates. -/
def fullLotOps : List Op :=
  Op.create "P1" "Main" 50 "Town" 1 ::
    (List.range 50).map (fun k => Op.entry ("RAA " ++ toString k) "P1" 0)

set_option maxRecDepth 200000 in
/-- C6: a fresh 50-space parking starts with availableSpaces 50; after 50
successful entries availableSpaces is 0 and a 51st entry fails with
NoCapacity; one registerExit brings availableSpaces back to 1 and a
further registerEntry on the same parking succeeds. -/
theorem capacity_roundtrip_scenario :
    (findParking (runOps emptyStore [Op.create "P1" "Main" 50 "Town" 1]) "P1").map
      Parking.availableSpaces = some 50 ∧
    (findParking (runOps emptyStore fullLotOps) "P1").map
      Parking.availableSpaces = some 0 ∧
    registerEntryApi (runOps emptyStore fullLotOps) "RAA 50" "P1" 0
      = Except.error ApiError.noCapacity ∧
    (findParking (applyOp (runOps emptyStore fullLotOps) (Op.exit 0 3600000)) "P1").map
      Parking.availableSpaces = some 1 ∧
    (registerEntryApi (applyOp (runOps emptyStore fullLotOps) (Op.exit 0 3600000))
      "RAA 50" "P1" 3600000).isOk = true := by
  exact ⟨by decide, by decide, by decide, by decide, by decide⟩

/-- A store with one parking, used to instantiate the C8 theorem. -/
def occStore : Store :=
  { parkings := [⟨"P2", "West", 5, 3, "Town", 1⟩], entries := [], nextId := 0 }

/-- Witness for C8: the report contains a row for the one parking of a
concrete store. -/
theorem occupancy_report_correct_witness :
    (⟨"P2", "West", 5, 3, "Town", 1⟩ : Parking) ∈ occStore.parkings ∧
    ∃ row ∈ getParkingOccupancyReport occStore,
      row.parkingCode = (⟨"P2", "West", 5, 3, "Town", 1⟩ : Parking).code :=
  ⟨by decide, occupancy_report_correct.2.1 occStore
    ⟨"P2", "West", 5, 3, "Town", 1⟩ (by decide)⟩

/-- Store after creating parking P1 with 10 spaces at fee 2. -/
def feeStore1 : Store :=
  { parkings := [⟨"P1", "Main", 10, 10, "Town", 2⟩], entries := [], nextId := 0 }

/-- Store after a vehicle entered P1 (ticket printed at fee 2). -/
def feeStore2 : Store :=
  { parkings := [⟨"P1", "Main", 10, 9, "Town", 2⟩],
    entries := [⟨0, "RAA 001 A", "P1", 0, none, none⟩], nextId := 1 }

/-- Store after the administrative fee change from 2 to 3. -/
def feeStore3 : Store :=
  { parkings := [⟨"P1", "Main", 10, 9, "Town", 3⟩],
    entries := [⟨0, "RAA 001 A", "P1", 0, none, none⟩], nextId := 1 }

/-- C10: the charge computed by registerExit uses the parking's hourlyFee
as stored at exit time, not the fee printed on the ticket: after an entry
at fee 2, a fee update to 3, and an exit 90 minutes later (2 rounded-up
hours), the billed amount is 3 * 2 = 6 while the ticket's fee times the
same hours is 2 * 2 = 4. -/
theorem exit_uses_current_fee_scenario :
    registerEntryApi feeStore1 "RAA 001 A" "P1" 0 = Except.ok
      (feeStore2, ⟨0, "RAA 001 A", "P1", 0, none, none⟩,
       ⟨0, "RAA 001 A", "Main", 0, 2⟩) ∧
    updateParkingApi feeStore2 "P1" none none none (some 3) = Except.ok
      (feeStore3, ⟨"P1", "Main", 10, 9, "Town", 3⟩) ∧
    registerExit feeStore3 0 5400000 = Except.ok
      (⟨[⟨"P1", "Main", 10, 10, "Town", 3⟩],
        [⟨0, "RAA 001 A", "P1", 0, some 5400000, some 6⟩], 1⟩,
       ⟨0, "RAA 001 A", "P1", 0, some 5400000, some 6⟩,
       ⟨0, "RAA 001 A", "Main", 0, 5400000, 2, 3, some 6⟩) ∧
    (3 : ℚ) * 2 = 6 ∧
    (⟨0, "RAA 001 A", "Main", 0, 2⟩ : Ticket).hourlyFee * 2 = 4 ∧
    (6 : ℚ) ≠ 4 := by
  have hfindE : findEntry feeStore3 0 = some ⟨0, "RAA 001 A", "P1", 0, none, none⟩ := by
    decide
  have hfindP : findParking feeStore3 "P1" = some ⟨"P1", "Main", 10, 9, "Town", 3⟩ := by
    decide
  refine ⟨by decide, by decide, ?_, by norm_num, ?_, by norm_num⟩
  · unfold registerExit
    simp only [hfindE]
    rw [if_neg (by simp)]
    simp only [hfindP]
    have hc2 : (⌈(3 / 2 : ℚ)⌉ : ℤ) = 2 := by
      rw [Int.ceil_eq_iff]; norm_num
    simp only [Except.ok.injEq, Prod.mk.injEq]
    norm_num [hc2, feeStore3]
  · show (2 : ℚ) * 2 = 4
    norm_num

end ParkingMS
